import Mathlib

/-!
Verification of the overwitch streaming engine (src/src/engine.c) against its
natural-language specification. The C code is shallowly embedded: pure loops
become recursive Lean functions, the stateful audio paths become explicit
state-passing functions together with inductive reachability relations, and
machine integers become Nat/Int with explicit `% 2 ^ w` where the code
truncates. Floats that carry audio samples are modelled as rationals; the
external resampler (libsamplerate's `src_simple`) is an explicit parameter of
the model, as the spec treats it as an external collaborator.
-/

namespace Overwitch

/-- Engine status enumeration `ow_engine_status_t`. The header that declares it
is not part of the sources; the constructors and their total order
ERROR < STOP < READY < BOOT < WAIT < RUN are modelled from the spec, which
fixes exactly this order, and match every comparison the C code performs. -/
inductive OwStatus where
  | error
  | stop
  | ready
  | boot
  | wait
  | run
deriving DecidableEq, Repr

/-- Numeric value of a status, following the spec's total order. -/
def OwStatus.toNat : OwStatus → ℕ
  | .error => 0
  | .stop => 1
  | .ready => 2
  | .boot => 3
  | .wait => 4
  | .run => 5

/-- Comparison `a <= b` on statuses, as the C code compares the enum values. -/
def statusLe (a b : OwStatus) : Bool := a.toNat ≤ b.toNat

/-- Comparison `a < b` on statuses, as the C code compares the enum values. -/
def statusLt (a b : OwStatus) : Bool := a.toNat < b.toNat

/-- Modelled from the spec: the error enumeration `ow_err_t`. Its declaring
header is not under src/. The constructors are the kinds §7 of the spec lists
(plus `cantOpenDev`, whose string "can't open device" the in-repo table
`ob_err_strgs` contains). The numeric values are consecutive from 0 in the
order of the in-repo string table, which manifestly mirrors the enum; the
spec lists the catch-all `GENERIC_ERROR` last and the table has no string for
it, so it is modelled as the next value after the table's last entry. -/
inductive OwErr where
  | ok
  | libusbInitFailed
  | cantOpenDev
  | cantSetUsbConfig
  | cantClaimIf
  | cantSetAltSetting
  | cantClearEp
  | cantPrepareTransfer
  | cantFindDev
  | noReadSpace
  | noWriteSpace
  | noRead
  | noWrite
  | noGetTime
  | noP2oAudioBuf
  | noO2pAudioBuf
  | noP2oMidiBuf
  | noO2pMidiBuf
  | genericError
deriving DecidableEq, Repr

/-- Numeric value of an error kind (see the modelling note on `OwErr`). -/
def OwErr.toIdx : OwErr → ℕ
  | .ok => 0
  | .libusbInitFailed => 1
  | .cantOpenDev => 2
  | .cantSetUsbConfig => 3
  | .cantClaimIf => 4
  | .cantSetAltSetting => 5
  | .cantClearEp => 6
  | .cantPrepareTransfer => 7
  | .cantFindDev => 8
  | .noReadSpace => 9
  | .noWriteSpace => 10
  | .noRead => 11
  | .noWrite => 12
  | .noGetTime => 13
  | .noP2oAudioBuf => 14
  | .noO2pAudioBuf => 15
  | .noP2oMidiBuf => 16
  | .noO2pMidiBuf => 17
  | .genericError => 18

/-- The fixed error-string table `ob_err_strgs` of engine.c, verbatim. -/
def ob_err_strgs : List String :=
  [ "ok",
    "libusb init failed",
    "can't open device",
    "can't set usb config",
    "can't claim usb interface",
    "can't set usb alt setting",
    "can't cleat endpoint",
    "can't prepare transfer",
    "can't find a matching device",
    "'buffer_read_space' not set",
    "'buffer_write_space' not set",
    "'buffer_read' not set",
    "'buffer_write' not set",
    "'get_time' not set",
    "'p2o_audio_buf' not set",
    "'o2p_audio_buf' not set",
    "'p2o_midi_buf' not set",
    "'o2p_midi_buf' not set" ]

/-- The lookup `ow_get_err_str`: the C code returns `ob_err_strgs[errcode]`
with no bounds check; the model returns `none` exactly when the index falls
outside the table. -/
def ow_get_err_str (e : OwErr) : Option String :=
  ob_err_strgs.get? e.toIdx

/-- Every error kind other than the catch-all `genericError`. -/
def owErrNonGeneric : List OwErr :=
  [ .ok, .libusbInitFailed, .cantOpenDev, .cantSetUsbConfig, .cantClaimIf,
    .cantSetAltSetting, .cantClearEp, .cantPrepareTransfer, .cantFindDev,
    .noReadSpace, .noWriteSpace, .noRead, .noWrite, .noGetTime,
    .noP2oAudioBuf, .noO2pAudioBuf, .noP2oMidiBuf, .noO2pMidiBuf ]

/-- Plain `bytes / bytes_per_frame * bytes_per_frame`, the frame-boundary
rounding `ow_bytes_to_frame_bytes` of engine.c. -/
def ow_bytes_to_frame_bytes (bytes bytesPerFrame : ℕ) : ℕ :=
  bytes / bytesPerFrame * bytesPerFrame

/-- C8: the claim asserts that for every error kind init or activate can
return, including the catch-all GENERIC_ERROR, `ow_get_err_str` indexes within
the bounds of the fixed string table. This fails: the table holds 18 strings
(indices 0 to 17) — one per kind from OK up to the last missing-member kind,
with no string for GENERIC_ERROR — so GENERIC_ERROR indexes at 18, out of
bounds, while every other kind resolves in bounds to its fixed string. -/
theorem ow_get_err_str_generic_out_of_bounds :
    ow_get_err_str OwErr.genericError = none
    ∧ ob_err_strgs.length = 18
    ∧ OwErr.toIdx OwErr.genericError = 18
    ∧ (owErrNonGeneric.all fun e =>
        (ow_get_err_str e).isSome && decide (e.toIdx < ob_err_strgs.length)) = true := by
  refine ⟨by decide, by decide, by decide, by decide⟩

/-! Activation: `ow_engine_activate_with_dll` (engine.c lines 834-919).
The host-supplied `struct ow_io_buffers` holds function pointers and ring
handles; only their presence (NULL or not) is inspected by activation, so the
model records one Bool per member. -/

/-- Presence flags of the members of the host-supplied `ow_io_buffers`:
`true` means the pointer is set, `false` means NULL. -/
structure IoBuffersPresence where
  readSpace : Bool
  writeSpace : Bool
  read : Bool
  write : Bool
  getTime : Bool
  p2oAudio : Bool
  o2pAudio : Bool
  p2oMidi : Bool
  o2pMidi : Bool
deriving DecidableEq, Repr

/-- The engine fields that `ow_engine_activate_with_dll` touches. -/
structure EngineActState where
  ioBuffers : Option IoBuffersPresence
  dllOw : Bool
  midi : Bool
  frames : ℕ
  status : OwStatus
deriving DecidableEq, Repr

/-- Result of activation: the engine as left by the call, the returned error
kind, and whether the MIDI and audio threads were started. -/
structure ActivateResult where
  engine : EngineActState
  err : OwErr
  midiThreadStarted : Bool
  audioThreadStarted : Bool
deriving DecidableEq, Repr

/-- Tail of activation after the member checks (engine.c lines 888-918): the
redundant DLL/get_time check, clearing `frames`, setting status READY, and
starting the one or two threads; a failing `pthread_create` yields the
catch-all GENERIC_ERROR. -/
def activateTail (e : EngineActState) (io : IoBuffersPresence) (dll : Bool)
    (midiThreadOk audioThreadOk : Bool) : ActivateResult :=
  if dll = true ∧ io.getTime = false then ⟨e, .noGetTime, false, false⟩
  else if e.midi = true ∧ midiThreadOk = false then
    ⟨{ e with frames := 0, status := .ready }, .genericError, false, false⟩
  else if audioThreadOk = false then
    ⟨{ e with frames := 0, status := .ready }, .genericError, e.midi, false⟩
  else
    ⟨{ e with frames := 0, status := .ready }, .ok, e.midi, true⟩

/-- The body of `ow_engine_activate_with_dll`. It first stores `io_buffers`
and `dll_ow` into the engine, then validates the members in the order of the
C code, then clears `frames`, sets status READY and starts the threads.
`midiThreadOk`/`audioThreadOk` model the outcomes of the two
`pthread_create` calls. -/
def activateStored (e0 : EngineActState) (io : IoBuffersPresence) (dll : Bool) :
    EngineActState :=
  { e0 with ioBuffers := some io, dllOw := dll }

def ow_engine_activate_with_dll (e0 : EngineActState) (io : IoBuffersPresence)
    (dll : Bool) (midiThreadOk audioThreadOk : Bool) : ActivateResult :=
  if io.readSpace = false then ⟨activateStored e0 io dll, .noReadSpace, false, false⟩
  else if io.writeSpace = false then ⟨activateStored e0 io dll, .noWriteSpace, false, false⟩
  else if io.read = false then ⟨activateStored e0 io dll, .noRead, false, false⟩
  else if io.write = false then ⟨activateStored e0 io dll, .noWrite, false, false⟩
  else if io.o2pAudio = false then ⟨activateStored e0 io dll, .noO2pAudioBuf, false, false⟩
  else if io.p2oAudio = false then ⟨activateStored e0 io dll, .noP2oAudioBuf, false, false⟩
  else if io.getTime = true ∨ io.o2pMidi = true ∨ io.p2oMidi = true then
    -- at least one of the jointly optional MIDI members is present: all three
    -- are checked in the order of the C code, then engine->midi is set to 1
    if io.getTime = false then ⟨activateStored e0 io dll, .noGetTime, false, false⟩
    else if io.o2pMidi = false then ⟨activateStored e0 io dll, .noO2pMidiBuf, false, false⟩
    else if io.p2oMidi = false then ⟨activateStored e0 io dll, .noP2oMidiBuf, false, false⟩
    else activateTail { activateStored e0 io dll with midi := true } io dll
      midiThreadOk audioThreadOk
  else
    activateTail { activateStored e0 io dll with midi := false } io dll
      midiThreadOk audioThreadOk

/-- The wrapper `ow_engine_activate`: activation without a DLL. -/
def ow_engine_activate (e0 : EngineActState) (io : IoBuffersPresence)
    (midiThreadOk audioThreadOk : Bool) : ActivateResult :=
  ow_engine_activate_with_dll e0 io false midiThreadOk audioThreadOk

/-- Unconditionally, activation leaves the argument io_buffers and dll_ow
stored in the engine: the two assignments precede every check. -/
theorem activate_stores_args (e0 : EngineActState) (io : IoBuffersPresence)
    (dll mOk aOk : Bool) :
    (ow_engine_activate_with_dll e0 io dll mOk aOk).engine.ioBuffers = some io
    ∧ (ow_engine_activate_with_dll e0 io dll mOk aOk).engine.dllOw = dll := by
  have tail : ∀ (e : EngineActState) (m a : Bool),
      (activateTail e io dll m a).engine.ioBuffers = e.ioBuffers
      ∧ (activateTail e io dll m a).engine.dllOw = e.dllOw := by
    intro e m a
    unfold activateTail
    split_ifs <;> exact ⟨rfl, rfl⟩
  obtain ⟨rs, ws, rd, wr, gt, pa, oa, pm, om⟩ := io
  cases rs <;> cases ws <;> cases rd <;> cases wr <;> cases oa <;> cases pa <;>
    cases gt <;> cases om <;> cases pm <;>
    first
      | exact ⟨rfl, rfl⟩
      | exact ⟨(tail _ _ _).1, (tail _ _ _).2⟩

/-- C7: with the four ring function pointers and both audio ring handles
present, activation succeeds with MIDI disabled iff `get_time`, `p2o_midi`
and `o2p_midi` are all absent (first conjunct); if at least one of the three
is present and any is missing, the distinct error kind of the missing member
is returned and no thread is started (second conjunct); each missing
required member yields its own error kind, before any thread starts, the
earlier-checked members being present (third conjunct); the nine
missing-member kinds are pairwise distinct (fourth conjunct). -/
theorem activate_member_checks (e0 : EngineActState) (io : IoBuffersPresence)
    (dll mOk aOk : Bool) :
    (io.readSpace = true → io.writeSpace = true → io.read = true → io.write = true →
      io.p2oAudio = true → io.o2pAudio = true →
      (((ow_engine_activate_with_dll e0 io false mOk aOk).err = .ok
          ∧ (ow_engine_activate_with_dll e0 io false mOk aOk).engine.midi = false
          ∧ mOk = true ∧ aOk = true)
        ↔ (io.getTime = false ∧ io.p2oMidi = false ∧ io.o2pMidi = false
            ∧ mOk = true ∧ aOk = true)))
    ∧ (io.readSpace = true → io.writeSpace = true → io.read = true → io.write = true →
      io.p2oAudio = true → io.o2pAudio = true →
      (io.getTime = true ∨ io.p2oMidi = true ∨ io.o2pMidi = true) →
      ((io.getTime = false →
          (ow_engine_activate_with_dll e0 io dll mOk aOk).err = .noGetTime
          ∧ (ow_engine_activate_with_dll e0 io dll mOk aOk).midiThreadStarted = false
          ∧ (ow_engine_activate_with_dll e0 io dll mOk aOk).audioThreadStarted = false)
        ∧ (io.getTime = true → io.o2pMidi = false →
          (ow_engine_activate_with_dll e0 io dll mOk aOk).err = .noO2pMidiBuf
          ∧ (ow_engine_activate_with_dll e0 io dll mOk aOk).midiThreadStarted = false
          ∧ (ow_engine_activate_with_dll e0 io dll mOk aOk).audioThreadStarted = false)
        ∧ (io.getTime = true → io.o2pMidi = true → io.p2oMidi = false →
          (ow_engine_activate_with_dll e0 io dll mOk aOk).err = .noP2oMidiBuf
          ∧ (ow_engine_activate_with_dll e0 io dll mOk aOk).midiThreadStarted = false
          ∧ (ow_engine_activate_with_dll e0 io dll mOk aOk).audioThreadStarted = false)))
    ∧ ((io.readSpace = false →
          (ow_engine_activate_with_dll e0 io dll mOk aOk).err = .noReadSpace
          ∧ (ow_engine_activate_with_dll e0 io dll mOk aOk).midiThreadStarted = false
          ∧ (ow_engine_activate_with_dll e0 io dll mOk aOk).audioThreadStarted = false)
      ∧ (io.readSpace = true → io.writeSpace = false →
          (ow_engine_activate_with_dll e0 io dll mOk aOk).err = .noWriteSpace
          ∧ (ow_engine_activate_with_dll e0 io dll mOk aOk).audioThreadStarted = false
          ∧ (ow_engine_activate_with_dll e0 io dll mOk aOk).midiThreadStarted = false)
      ∧ (io.readSpace = true → io.writeSpace = true → io.read = false →
          (ow_engine_activate_with_dll e0 io dll mOk aOk).err = .noRead
          ∧ (ow_engine_activate_with_dll e0 io dll mOk aOk).audioThreadStarted = false
          ∧ (ow_engine_activate_with_dll e0 io dll mOk aOk).midiThreadStarted = false)
      ∧ (io.readSpace = true → io.writeSpace = true → io.read = true →
          io.write = false →
          (ow_engine_activate_with_dll e0 io dll mOk aOk).err = .noWrite
          ∧ (ow_engine_activate_with_dll e0 io dll mOk aOk).audioThreadStarted = false
          ∧ (ow_engine_activate_with_dll e0 io dll mOk aOk).midiThreadStarted = false)
      ∧ (io.readSpace = true → io.writeSpace = true → io.read = true →
          io.write = true → io.o2pAudio = false →
          (ow_engine_activate_with_dll e0 io dll mOk aOk).err = .noO2pAudioBuf
          ∧ (ow_engine_activate_with_dll e0 io dll mOk aOk).audioThreadStarted = false
          ∧ (ow_engine_activate_with_dll e0 io dll mOk aOk).midiThreadStarted = false)
      ∧ (io.readSpace = true → io.writeSpace = true → io.read = true →
          io.write = true → io.o2pAudio = true → io.p2oAudio = false →
          (ow_engine_activate_with_dll e0 io dll mOk aOk).err = .noP2oAudioBuf
          ∧ (ow_engine_activate_with_dll e0 io dll mOk aOk).audioThreadStarted = false
          ∧ (ow_engine_activate_with_dll e0 io dll mOk aOk).midiThreadStarted = false))
    ∧ ([OwErr.noReadSpace, .noWriteSpace, .noRead, .noWrite, .noGetTime,
        .noP2oAudioBuf, .noO2pAudioBuf, .noP2oMidiBuf, .noO2pMidiBuf].Pairwise (· ≠ ·)) := by
  obtain ⟨rs, ws, rd, wr, gt, pa, oa, pm, om⟩ := io
  refine ⟨?_, ?_, ⟨?_, ?_, ?_, ?_, ?_, ?_⟩, by decide⟩
  · rintro rfl rfl rfl rfl rfl rfl
    cases gt <;> cases pm <;> cases om <;> cases mOk <;> cases aOk <;>
      simp [ow_engine_activate_with_dll, activateTail]
  · rintro rfl rfl rfl rfl rfl rfl h7
    cases gt <;> cases pm <;> cases om <;>
      simp_all [ow_engine_activate_with_dll, activateTail]
  · rintro rfl
    simp [ow_engine_activate_with_dll]
  · rintro rfl rfl
    simp [ow_engine_activate_with_dll]
  · rintro rfl rfl rfl
    simp [ow_engine_activate_with_dll]
  · rintro rfl rfl rfl rfl
    simp [ow_engine_activate_with_dll]
  · rintro rfl rfl rfl rfl rfl
    simp [ow_engine_activate_with_dll]
  · rintro rfl rfl rfl rfl rfl rfl
    simp [ow_engine_activate_with_dll]

/-- Engine fields before activation, for concrete instantiations. -/
def engineDemo : EngineActState := ⟨none, false, false, 7, .error⟩

/-- IoBuffers with the audio members present and the jointly optional MIDI
members absent. -/
def ioAudioOnly : IoBuffersPresence :=
  ⟨true, true, true, true, false, true, true, false, false⟩

/-- IoBuffers with every member absent. -/
def ioNothing : IoBuffersPresence :=
  ⟨false, false, false, false, false, false, false, false, false⟩

/-- Witness for `activate_member_checks`: with only the audio members present,
activation succeeds with MIDI disabled. -/
theorem activate_member_checks_witness :
    (ow_engine_activate_with_dll engineDemo ioAudioOnly false true true).err = .ok
    ∧ (ow_engine_activate_with_dll engineDemo ioAudioOnly false true true).engine.midi = false
    ∧ True := by
  have h := ((activate_member_checks engineDemo ioAudioOnly false true true).1
    rfl rfl rfl rfl rfl rfl).mpr ⟨rfl, rfl, rfl, rfl, rfl⟩
  exact ⟨h.1, h.2.1, trivial⟩

/-- C10: activation is not atomic on error: whenever
`ow_engine_activate_with_dll` returns an error kind, the engine's io_buffers
and dll_ow fields have already been overwritten with the rejected
arguments. -/
theorem activate_overwrites_before_validating (e0 : EngineActState)
    (io : IoBuffersPresence) (dll mOk aOk : Bool)
    (herr : (ow_engine_activate_with_dll e0 io dll mOk aOk).err ≠ .ok) :
    (ow_engine_activate_with_dll e0 io dll mOk aOk).engine.ioBuffers = some io
    ∧ (ow_engine_activate_with_dll e0 io dll mOk aOk).engine.dllOw = dll :=
  activate_stores_args e0 io dll mOk aOk

/-- Witness for `activate_overwrites_before_validating`: an activation with
every member missing fails, yet leaves the rejected io_buffers stored. -/
theorem activate_overwrites_before_validating_witness :
    (ow_engine_activate_with_dll engineDemo ioNothing false true true).engine.ioBuffers
      = some ioNothing
    ∧ (ow_engine_activate_with_dll engineDemo ioNothing false true true).engine.dllOw
      = false :=
  activate_overwrites_before_validating engineDemo ioNothing false true true (by decide)

/-! Device→host audio path: `set_usb_input_data_blks` (engine.c lines
112-164), the data work of an audio-in transfer completion. -/

/-- Rational value of `INT_MAX`, the divisor/multiplier of the sample codec. -/
def intMaxQ : ℚ := 2 ^ 31 - 1

/-- Decoding loop of `set_usb_input_data_blks`: over the blocks in order, each
big-endian int32 sample value is divided by `INT_MAX` and stored as a float
(modelled as a rational) into `o2p_transfer_buf`. `blkData` holds, per
incoming block, the decoded integer values of its `data` array
(`OB_FRAMES_PER_BLOCK × outputs` of them). -/
def o2pDecode (blkData : List (List ℤ)) : List ℚ :=
  blkData.flatten.map fun z => (z : ℚ) / intMaxQ

/-- Observable outcome of one audio-in completion: the decoded transfer
buffer, the byte counts of the write calls issued to the o2p audio ring (in
order), whether an overflow was reported, and whether the DLL was ticked. -/
structure InputCycleResult where
  o2pTransferBuf : List ℚ
  ringWrites : List ℕ
  overflowReported : Bool
  dllTicked : Bool
deriving DecidableEq, Repr

/-- The body of `set_usb_input_data_blks`: tick the DLL if attached and read
the status under the lock; decode all blocks into `o2p_transfer_buf`; if
status < RUN return; else write the whole buffer in one call when the ring
has at least `o2p_transfer_size` free bytes, and otherwise drop it and
report an overflow. `wso2j` is the ring's write space. -/
def set_usb_input_data_blks (dllPresent : Bool) (status : OwStatus)
    (o2pTransferSize wso2j : ℕ) (blkData : List (List ℤ)) : InputCycleResult :=
  if statusLt status .run = true then
    ⟨o2pDecode blkData, [], false, dllPresent⟩
  else if o2pTransferSize ≤ wso2j then
    ⟨o2pDecode blkData, [o2pTransferSize], false, dllPresent⟩
  else
    ⟨o2pDecode blkData, [], true, dllPresent⟩

/-- C4: on every audio-in completion, after decoding into o2p_transfer_buf:
below RUN the ring is untouched; at RUN and above, a single write of exactly
o2p_transfer_size bytes happens when the write space suffices, and otherwise
nothing is written and an overflow is reported. -/
theorem set_usb_input_data_blks_cases (dll : Bool) (status : OwStatus)
    (sz ws : ℕ) (bd : List (List ℤ)) :
    (set_usb_input_data_blks dll status sz ws bd).o2pTransferBuf = o2pDecode bd
    ∧ (statusLt status .run = true →
        (set_usb_input_data_blks dll status sz ws bd).ringWrites = []
        ∧ (set_usb_input_data_blks dll status sz ws bd).overflowReported = false)
    ∧ (statusLt status .run = false → sz ≤ ws →
        (set_usb_input_data_blks dll status sz ws bd).ringWrites = [sz]
        ∧ (set_usb_input_data_blks dll status sz ws bd).overflowReported = false)
    ∧ (statusLt status .run = false → ws < sz →
        (set_usb_input_data_blks dll status sz ws bd).ringWrites = []
        ∧ (set_usb_input_data_blks dll status sz ws bd).overflowReported = true) := by
  unfold set_usb_input_data_blks
  split_ifs with h1 h2 <;> simp_all

/-- Witness for `set_usb_input_data_blks_cases`: at RUN with 8 free bytes and
an 8-byte transfer, the whole buffer goes out in one write and no overflow is
reported. -/
theorem set_usb_input_data_blks_cases_witness :
    (set_usb_input_data_blks false .run 8 8 [[2 ^ 31 - 1, 0]]).ringWrites = [8]
    ∧ (set_usb_input_data_blks false .run 8 8 [[2 ^ 31 - 1, 0]]).overflowReported
      = false :=
  (set_usb_input_data_blks_cases false .run 8 8 [[2 ^ 31 - 1, 0]]).2.2.1
    (by decide) (by decide)

/-! Device→host MIDI path: `cb_xfr_in_midi` (engine.c lines 296-352). The C
loop walks the 512-byte bulk buffer in `OB_MIDI_EVENT_SIZE` (4-byte) strides
while `length < xfr->actual_length`; the offsets it visits are exactly the
multiples of 4 below `actual_length`, materialised here as `strideOffsets`.
The o2p MIDI ring is observed through its free byte count: each accepted
event consumes `sizeof (struct ow_midi_event)` bytes (`evSize`). -/

/-- What the callback does with the 4-byte event at one stride offset. -/
inductive MidiDecision where
  | written
  | overflow
  | filtered
deriving DecidableEq, Repr

/-- One stride of the MIDI-in walk: the byte offset of the event, the o2p
MIDI ring's free bytes just before the stride, and the decision taken. -/
structure MidiEntry where
  off : ℕ
  spaceBefore : ℕ
  dec : MidiDecision
deriving DecidableEq, Repr

/-- Offsets `0, 4, 8, …` below `alen`: the values taken by `length` in the
C loop `while (length < actual_length) { …; length += 4 }`. -/
def strideOffsets (alen : ℕ) : List ℕ :=
  (List.range ((alen + 3) / 4)).map (· * 4)

/-- The walk of `cb_xfr_in_midi` over the stride offsets: an event whose
first byte lies in 0x08..=0x0f is written when the ring has room for a full
event (consuming `evSize` bytes of space) and dropped with an overflow
report otherwise; any other first byte is filtered out. -/
def midiInWalk (buf : List ℕ) (evSize : ℕ) : List ℕ → ℕ → List MidiEntry
  | [], _ => []
  | off :: offs, space =>
    if 8 ≤ buf.getD off 0 ∧ buf.getD off 0 ≤ 15 then
      if evSize ≤ space then
        ⟨off, space, .written⟩ :: midiInWalk buf evSize offs (space - evSize)
      else
        ⟨off, space, .overflow⟩ :: midiInWalk buf evSize offs space
    else
      ⟨off, space, .filtered⟩ :: midiInWalk buf evSize offs space

/-- The body of `cb_xfr_in_midi`: below RUN the callback only resubmits; on a
completed transfer it walks the buffer; on any other transfer status it only
logs (except TIMED_OUT) and resubmits. -/
def cb_xfr_in_midi (status : OwStatus) (completed : Bool) (buf : List ℕ)
    (alen evSize space : ℕ) : List MidiEntry :=
  if statusLt status .run = true then []
  else if completed = true then midiInWalk buf evSize (strideOffsets alen) space
  else []

theorem mem_strideOffsets (alen o : ℕ) :
    o ∈ strideOffsets alen ↔ o % 4 = 0 ∧ o < alen := by
  unfold strideOffsets
  simp only [List.mem_map, List.mem_range]
  constructor
  · rintro ⟨k, hk, rfl⟩
    omega
  · rintro ⟨h4, hlt⟩
    exact ⟨o / 4, by omega, by omega⟩

theorem midiInWalk_mem_off (buf : List ℕ) (evSize : ℕ) (offs : List ℕ)
    (space : ℕ) :
    ∀ e ∈ midiInWalk buf evSize offs space, e.off ∈ offs := by
  induction offs generalizing space with
  | nil => simp [midiInWalk]
  | cons off offs ih =>
    intro e he
    unfold midiInWalk at he
    split_ifs at he <;> rcases List.mem_cons.mp he with rfl | hm <;>
      first
        | exact List.mem_cons_self _ _
        | exact List.mem_cons_of_mem _ (ih _ e hm)

theorem midiInWalk_dec_iff (buf : List ℕ) (evSize : ℕ) (offs : List ℕ)
    (space : ℕ) :
    ∀ e ∈ midiInWalk buf evSize offs space,
      e.dec = .written
        ↔ (8 ≤ buf.getD e.off 0 ∧ buf.getD e.off 0 ≤ 15
            ∧ evSize ≤ e.spaceBefore) := by
  induction offs generalizing space with
  | nil => simp [midiInWalk]
  | cons off offs ih =>
    intro e he
    unfold midiInWalk at he
    split_ifs at he with h1 h2
    · rcases List.mem_cons.mp he with rfl | hm
      · exact ⟨fun _ => ⟨h1.1, h1.2, h2⟩, fun _ => rfl⟩
      · exact ih _ e hm
    · rcases List.mem_cons.mp he with rfl | hm
      · exact ⟨(fun hw => nomatch hw), fun h => absurd h.2.2 h2⟩
      · exact ih _ e hm
    · rcases List.mem_cons.mp he with rfl | hm
      · exact ⟨(fun hw => nomatch hw), fun h => absurd ⟨h.1, h.2.1⟩ h1⟩
      · exact ih _ e hm

theorem midiInWalk_cons_written (buf : List ℕ) (evSize off : ℕ) (offs : List ℕ)
    (space : ℕ) (ha : 8 ≤ buf.getD off 0) (hb : buf.getD off 0 ≤ 15)
    (hc : evSize ≤ space) :
    midiInWalk buf evSize (off :: offs) space
      = ⟨off, space, .written⟩ :: midiInWalk buf evSize offs (space - evSize) := by
  rw [midiInWalk, if_pos ⟨ha, hb⟩, if_pos hc]

theorem midiInWalk_cons_overflow (buf : List ℕ) (evSize off : ℕ) (offs : List ℕ)
    (space : ℕ) (ha : 8 ≤ buf.getD off 0) (hb : buf.getD off 0 ≤ 15)
    (hc : ¬ evSize ≤ space) :
    midiInWalk buf evSize (off :: offs) space
      = ⟨off, space, .overflow⟩ :: midiInWalk buf evSize offs space := by
  rw [midiInWalk, if_pos ⟨ha, hb⟩, if_neg hc]

theorem midiInWalk_cons_filtered (buf : List ℕ) (evSize off : ℕ) (offs : List ℕ)
    (space : ℕ) (ha : ¬ (8 ≤ buf.getD off 0 ∧ buf.getD off 0 ≤ 15)) :
    midiInWalk buf evSize (off :: offs) space
      = ⟨off, space, .filtered⟩ :: midiInWalk buf evSize offs space := by
  rw [midiInWalk, if_neg ha]

theorem midiInWalk_space (buf : List ℕ) (evSize : ℕ) (offs : List ℕ)
    (space : ℕ) :
    ∀ i, i < (midiInWalk buf evSize offs space).length →
      ((midiInWalk buf evSize offs space).getD i ⟨0, 0, .filtered⟩).spaceBefore
        = space - evSize *
            (((midiInWalk buf evSize offs space).take i).countP
              fun e => decide (e.dec = .written)) := by
  induction offs generalizing space with
  | nil => intro i hi; simp [midiInWalk] at hi
  | cons off offs ih =>
    intro i hi
    by_cases h1 : 8 ≤ buf.getD off 0 ∧ buf.getD off 0 ≤ 15
    · by_cases h2 : evSize ≤ space
      · rw [midiInWalk_cons_written buf evSize off offs space h1.1 h1.2 h2] at hi ⊢
        cases i with
        | zero => simp
        | succ j =>
          simp only [List.getD_cons_succ, List.take_succ_cons, List.countP_cons]
          rw [ih (space - evSize) j (by simp only [List.length_cons] at hi; omega)]
          norm_num
          rw [Nat.mul_add, Nat.mul_one]
          omega
      · rw [midiInWalk_cons_overflow buf evSize off offs space h1.1 h1.2 h2] at hi ⊢
        cases i with
        | zero => simp
        | succ j =>
          simp only [List.getD_cons_succ, List.take_succ_cons, List.countP_cons]
          rw [ih space j (by simp only [List.length_cons] at hi; omega)]
          simp
    · rw [midiInWalk_cons_filtered buf evSize off offs space h1] at hi ⊢
      cases i with
      | zero => simp
      | succ j =>
        simp only [List.getD_cons_succ, List.take_succ_cons, List.countP_cons]
        rw [ih space j (by simp only [List.length_cons] at hi; omega)]
        simp

/-- C5: on a completed MIDI-in transfer the buffer is walked in 4-byte
strides up to actual_length (third conjunct); nothing is written below RUN or
on a non-completed transfer (first and second conjuncts); a stride's event is
written if and only if its first byte lies in 0x08..=0x0f and the o2p MIDI
ring has room for a full event at that moment (fourth conjunct), the room
being the initial write space minus the bytes consumed by the events already
written (fifth conjunct). -/
theorem cb_xfr_in_midi_filter (status : OwStatus) (completed : Bool)
    (buf : List ℕ) (alen evSize space : ℕ) :
    (statusLt status .run = true →
      cb_xfr_in_midi status completed buf alen evSize space = [])
    ∧ (completed = false →
      cb_xfr_in_midi status completed buf alen evSize space = [])
    ∧ (∀ e ∈ cb_xfr_in_midi status completed buf alen evSize space,
        e.off % 4 = 0 ∧ e.off < alen)
    ∧ (∀ e ∈ cb_xfr_in_midi status completed buf alen evSize space,
        e.dec = .written
          ↔ (8 ≤ buf.getD e.off 0 ∧ buf.getD e.off 0 ≤ 15
              ∧ evSize ≤ e.spaceBefore))
    ∧ (∀ i, i < (cb_xfr_in_midi status completed buf alen evSize space).length →
        ((cb_xfr_in_midi status completed buf alen evSize space).getD i
            ⟨0, 0, .filtered⟩).spaceBefore
          = space - evSize *
              (((cb_xfr_in_midi status completed buf alen evSize space).take i).countP
                fun e => decide (e.dec = .written))) := by
  unfold cb_xfr_in_midi
  split_ifs with h1 h2
  · simp
  · refine ⟨by simp_all, by simp_all, ?_, ?_, ?_⟩
    · intro e he
      have := midiInWalk_mem_off buf evSize (strideOffsets alen) space e he
      exact (mem_strideOffsets alen e.off).mp this
    · exact midiInWalk_dec_iff buf evSize (strideOffsets alen) space
    · exact midiInWalk_space buf evSize (strideOffsets alen) space
  · simp_all

/-- The MIDI-in buffer of scenario S4: note-on, reserved, CC, reserved. -/
def midiDemoBuf : List ℕ :=
  [9, 1, 2, 3, 0, 0, 0, 0, 11, 4, 5, 6, 5, 7, 7, 7]

/-- Witness for `cb_xfr_in_midi_filter`: in the S4 buffer the CC event at
offset 8 (first byte 0x0b, 48 free bytes at its stride) is written. -/
theorem cb_xfr_in_midi_filter_witness :
    (MidiEntry.mk 8 48 .written).dec = .written
      ↔ (8 ≤ midiDemoBuf.getD 8 0 ∧ midiDemoBuf.getD 8 0 ≤ 15
          ∧ 16 ≤ (MidiEntry.mk 8 48 .written).spaceBefore) :=
  (cb_xfr_in_midi_filter .run true midiDemoBuf 16 16 64).2.2.2.1
    ⟨8, 48, .written⟩ (by decide)

/-! Host→device audio path: `set_usb_output_data_blks` (engine.c lines
166-264), the p2o audio ring, the outgoing USB blocks and the surrounding
engine state, as a transition system. Samples (host floats) are rationals;
the ring is the list of samples it holds, `4` bytes each, so the C byte
counts are `4 ×` sample counts. The external resampler `src_simple` is the
parameter `srcSimple`: input samples, ratio and channel count to output
samples. `sent` is the observation trace: the encoded blocks of each
completed out-cycle, in order. -/

/-- Per-engine constants fixed at init: channel count of the outgoing
direction (`device_desc->inputs`), `blocks_per_transfer`,
`OB_FRAMES_PER_BLOCK`, `OB_PADDING_SIZE`, and the external resampler. -/
structure P2OParams where
  inputs : ℕ
  blocksPerTransfer : ℕ
  framesPerBlock : ℕ
  padSize : ℕ
  srcSimple : List ℚ → ℚ → ℕ → List ℚ

/-- Derived constant `frames_per_transfer = OB_FRAMES_PER_BLOCK ×
blocks_per_transfer` (engine.c line 598). -/
def framesPerTransfer (P : P2OParams) : ℕ :=
  P.framesPerBlock * P.blocksPerTransfer

/-- Derived constant `p2o_frame_size = OB_BYTES_PER_SAMPLE × inputs`
(engine.c line 625), with 4-byte samples. -/
def p2oFrameSize (P : P2OParams) : ℕ := 4 * P.inputs

/-- Derived constant `p2o_transfer_size = frames_per_transfer ×
p2o_frame_size` (engine.c line 630). -/
def p2oTransferSize (P : P2OParams) : ℕ :=
  framesPerTransfer P * p2oFrameSize P

/-- Number of samples in `p2o_transfer_buf`. -/
def transferSamples (P : P2OParams) : ℕ :=
  framesPerTransfer P * P.inputs

/-- One outgoing USB block (`struct ow_engine_usb_blk`): the 16-bit header
and frames fields as their two wire bytes (most significant first, as
`htobe16` stores them), the padding bytes, and the block's int32 sample
values. -/
structure OutBlk where
  headerHi : ℕ
  headerLo : ℕ
  framesHi : ℕ
  framesLo : ℕ
  padding : List ℕ
  data : List ℤ
deriving DecidableEq, Repr

/-- The 16-bit value a big-endian reader decodes from a block's frames
field. -/
def decodeFrames (b : OutBlk) : ℕ := b.framesHi * 256 + b.framesLo

/-- A read call issued to the p2o audio ring: with a NULL destination
(discard) or into an engine buffer; the payload is the byte count. -/
inductive RingOp where
  | discard (bytes : ℕ)
  | readBuf (bytes : ℕ)
deriving DecidableEq, Repr

/-- Truncation toward zero of a rational, the C cast `(int32_t) x`. -/
def ratTrunc (q : ℚ) : ℤ := q.num.tdiv (q.den : ℤ)

/-- Sample encoding of the out path: `(int32_t) (*f * INT_MAX)`. -/
def encSample (q : ℚ) : ℤ := ratTrunc (q * intMaxQ)

/-- Reading `src` into the front of buffer `dst`, keeping `dst`'s length:
how `io_buffers->read` and `src_simple` fill an engine buffer. -/
def writeInto (dst src : List ℚ) : List ℚ :=
  src.take dst.length ++ dst.drop src.length

/-- The p2o-side engine state: `reading_at_p2o_end`, `p2o_audio_enabled`,
the p2o audio ring, `p2o_transfer_buf`, `p2o_resampler_buf`, the live
`p2o_data.input_frames`/`src_ratio` of the resampler, the running `frames`
counter, the outgoing USB blocks, the latency counters, and the `sent`
observation trace of encoded transfers. -/
structure P2OState where
  reading : Bool
  enabled : Bool
  ring : List ℚ
  buf : List ℚ
  scratch : List ℚ
  srcInputFrames : ℕ
  srcRatio : ℚ
  counter : ℕ
  blks : List OutBlk
  p2oLatency : ℕ
  p2oMaxLatency : ℕ
  sent : List (List OutBlk)
deriving DecidableEq, Repr

/-- Byte count the ring's `read_space` reports. -/
def ringBytes (s : P2OState) : ℕ := 4 * s.ring.length

/-- The block-encoding loop at label `set_blocks` (engine.c lines 245-263):
for each block in order the counter grows by `OB_FRAMES_PER_BLOCK`, its low
16 bits are stored big-endian in the block's frames field, and the block
data is refilled from the transfer buffer; header and padding are not
touched. Returns the new block list and the new counter. -/
def encodeBlks (P : P2OParams) : ℕ → List ℚ → List OutBlk → List OutBlk × ℕ
  | c, _, [] => ([], c)
  | c, buf, blk :: rest =>
    let c2 := c + P.framesPerBlock
    let n := P.framesPerBlock * P.inputs
    let res := encodeBlks P c2 (buf.drop n) rest
    ({ blk with
        framesHi := c2 % 65536 / 256
        framesLo := c2 % 256
        data := (buf.take n).map encSample } :: res.1, res.2)

/-- State change of the encoding pass: new blocks, advanced counter, and the
encoded transfer appended to the observation trace. -/
def setBlocks (P : P2OParams) (s : P2OState) : P2OState :=
  { s with
    blks := (encodeBlks P s.counter s.buf s.blks).1
    counter := (encodeBlks P s.counter s.buf s.blks).2
    sent := s.sent ++ [(encodeBlks P s.counter s.buf s.blks).1] }

/-- The body of `set_usb_output_data_blks`, producing the next state and the
read calls issued to the p2o audio ring. Phase A (`reading_at_p2o_end`
false): with audio enabled and a full transfer buffered, discard down to a
frame boundary and switch to steady state, else do nothing; either way
encode the current transfer buffer. Steady state: if audio was disabled,
silence the buffer and fall back to phase A; otherwise record latency, then
read a full transfer when available, else read the whole frames available
into the resampler scratch, set `input_frames` and
`src_ratio = frames_per_transfer / available_frames`, and let the resampler
produce the transfer buffer. -/
def set_usb_output_data_blks (P : P2OParams) (s : P2OState) :
    P2OState × List RingOp :=
  if s.reading = false then
    if s.enabled = true ∧ p2oTransferSize P ≤ ringBytes s then
      (setBlocks P { s with
          ring := s.ring.drop (ow_bytes_to_frame_bytes (ringBytes s) (p2oFrameSize P) / 4)
          reading := true },
        [.discard (ow_bytes_to_frame_bytes (ringBytes s) (p2oFrameSize P))])
    else
      (setBlocks P s, [])
  else if s.enabled = false then
    (setBlocks P { s with
        reading := false
        buf := List.replicate (transferSamples P) 0 }, [])
  else if p2oTransferSize P ≤ ringBytes s then
    (setBlocks P { s with
        p2oLatency := ringBytes s
        p2oMaxLatency := max s.p2oMaxLatency (ringBytes s)
        buf := writeInto s.buf (s.ring.take (p2oTransferSize P / 4))
        ring := s.ring.drop (p2oTransferSize P / 4) },
      [.readBuf (p2oTransferSize P)])
  else
    (setBlocks P { s with
        p2oLatency := ringBytes s
        p2oMaxLatency := max s.p2oMaxLatency (ringBytes s)
        scratch := writeInto s.scratch
          (s.ring.take (ringBytes s / p2oFrameSize P * p2oFrameSize P / 4))
        ring := s.ring.drop (ringBytes s / p2oFrameSize P * p2oFrameSize P / 4)
        srcInputFrames := ringBytes s / p2oFrameSize P
        srcRatio := (framesPerTransfer P : ℚ) / ((ringBytes s / p2oFrameSize P : ℕ) : ℚ)
        buf := writeInto s.buf
          (P.srcSimple (s.ring.take (ringBytes s / p2oFrameSize P * p2oFrameSize P / 4))
            ((framesPerTransfer P : ℚ) / ((ringBytes s / p2oFrameSize P : ℕ) : ℚ))
            P.inputs) },
      [.readBuf (ringBytes s / p2oFrameSize P * p2oFrameSize P)])

/-- An outgoing block as `ow_engine_init` leaves it: zeroed, then
`header = htobe16 (0x07ff)` (engine.c lines 616-623). -/
def initOutBlk (P : P2OParams) : OutBlk :=
  ⟨0x07, 0xff, 0, 0, List.replicate P.padSize 0,
    List.replicate (P.framesPerBlock * P.inputs) 0⟩

/-- The p2o-side state after `ow_engine_init` and activation: buffers zeroed,
`frames = 0`, p2o audio disabled, and `reading_at_p2o_end`, the latencies and
the ring drain as the audio thread's first loop iteration leaves them before
any callback can run. -/
def initP2OState (P : P2OParams) : P2OState :=
  { reading := false, enabled := false, ring := [],
    buf := List.replicate (transferSamples P) 0,
    scratch := List.replicate (transferSamples P) 0,
    srcInputFrames := framesPerTransfer P, srcRatio := 0,
    counter := 0, blks := List.replicate P.blocksPerTransfer (initOutBlk P),
    p2oLatency := 0, p2oMaxLatency := 0, sent := [] }

/-- Interleaved events that touch the p2o side: the host writing samples to
the ring, the host toggling `set_p2o_audio_enable`, an audio-out completion
running `set_usb_output_data_blks`, and the audio thread's re-arm
(engine.c lines 795-797 and 825-828: reset latencies and
`reading_at_p2o_end`, drain the ring to a frame boundary, zero
`p2o_transfer_buf`). -/
inductive P2OStep (P : P2OParams) : P2OState → P2OState → Prop
  | hostWrite (xs : List ℚ) (s : P2OState) :
      P2OStep P s { s with ring := s.ring ++ xs }
  | setEnable (b : Bool) (s : P2OState) :
      P2OStep P s { s with enabled := b }
  | outCycle (s : P2OState) :
      P2OStep P s (set_usb_output_data_blks P s).1
  | rearm (s : P2OState) :
      P2OStep P s { s with
        reading := false
        p2oLatency := 0
        p2oMaxLatency := 0
        ring := s.ring.drop (ow_bytes_to_frame_bytes (ringBytes s) (p2oFrameSize P) / 4)
        buf := List.replicate (transferSamples P) 0 }

/-- States of the p2o side reachable from init under the interleaving. -/
inductive P2OReach (P : P2OParams) : P2OState → Prop
  | init : P2OReach P (initP2OState P)
  | step {s t : P2OState} : P2OReach P s → P2OStep P s t → P2OReach P t

theorem encodeBlks_length (P : P2OParams) (c : ℕ) (buf : List ℚ)
    (blks : List OutBlk) :
    ((encodeBlks P c buf blks).1).length = blks.length := by
  induction blks generalizing c buf with
  | nil => rfl
  | cons blk rest ih =>
    simp only [encodeBlks, List.length_cons, ih]

theorem encodeBlks_counter (P : P2OParams) (c : ℕ) (buf : List ℚ)
    (blks : List OutBlk) :
    (encodeBlks P c buf blks).2 = c + P.framesPerBlock * blks.length := by
  induction blks generalizing c buf with
  | nil => simp [encodeBlks]
  | cons blk rest ih =>
    simp only [encodeBlks, ih, List.length_cons]
    ring

theorem be16_decode (v : ℕ) : v % 65536 / 256 * 256 + v % 256 = v % 65536 := by
  omega

theorem encodeBlks_decode (P : P2OParams) (c : ℕ) (buf : List ℚ)
    (blks : List OutBlk) :
    ((encodeBlks P c buf blks).1).map decodeFrames
      = (List.range blks.length).map
          (fun k => (c + (k + 1) * P.framesPerBlock) % 65536) := by
  induction blks generalizing c buf with
  | nil => rfl
  | cons blk rest ih =>
    simp only [encodeBlks, List.map_cons, List.length_cons]
    rw [List.range_succ_eq_map, List.map_cons, List.map_map]
    congr 1
    · simp only [decodeFrames]
      rw [be16_decode]
      congr 1
      ring
    · rw [ih]
      apply List.map_congr_left
      intro k hk
      simp only [Function.comp, Nat.succ_eq_add_one]
      congr 1
      ring

theorem encodeBlks_hdr (P : P2OParams) (c : ℕ) (buf : List ℚ)
    (blks : List OutBlk) :
    ((encodeBlks P c buf blks).1).map (fun b => (b.headerHi, b.headerLo, b.padding))
      = blks.map (fun b => (b.headerHi, b.headerLo, b.padding)) := by
  induction blks generalizing c buf with
  | nil => rfl
  | cons blk rest ih =>
    simp only [encodeBlks, List.map_cons, ih]

/-- Wire view of a block's fields that the out-cycle never modifies. -/
def hdrOk (P : P2OParams) (b : OutBlk) : Prop :=
  b.headerHi = 0x07 ∧ b.headerLo = 0xff ∧ b.padding = List.replicate P.padSize 0

theorem encodeBlks_hdrOk (P : P2OParams) (c : ℕ) (buf : List ℚ)
    (blks : List OutBlk) (h : ∀ b ∈ blks, hdrOk P b) :
    ∀ b ∈ (encodeBlks P c buf blks).1, hdrOk P b := by
  induction blks generalizing c buf with
  | nil => simp [encodeBlks]
  | cons blk rest ih =>
    intro b hb
    simp only [encodeBlks, List.mem_cons] at hb
    rcases hb with rfl | hb
    · exact h blk (List.mem_cons_self _ _)
    · exact ih _ _ (fun x hx => h x (List.mem_cons_of_mem _ hx)) b hb

theorem setBlocks_inv (P : P2OParams) (c : ℕ) (buf : List ℚ)
    (blks : List OutBlk) (sent : List (List OutBlk))
    (hLen : blks.length = P.blocksPerTransfer)
    (hCnt : c = P.framesPerBlock * sent.flatten.length)
    (hSentLen : ∀ t ∈ sent, t.length = P.blocksPerTransfer)
    (hDec : sent.flatten.map decodeFrames
      = (List.range sent.flatten.length).map
          (fun j => ((j + 1) * P.framesPerBlock) % 65536))
    (hHdr : ∀ b ∈ blks, hdrOk P b)
    (hSentHdr : ∀ t ∈ sent, ∀ b ∈ t, hdrOk P b) :
    ((encodeBlks P c buf blks).1).length = P.blocksPerTransfer
    ∧ (encodeBlks P c buf blks).2
      = P.framesPerBlock * ((sent ++ [(encodeBlks P c buf blks).1]).flatten.length)
    ∧ (∀ t ∈ sent ++ [(encodeBlks P c buf blks).1],
        t.length = P.blocksPerTransfer)
    ∧ ((sent ++ [(encodeBlks P c buf blks).1]).flatten.map decodeFrames
      = (List.range ((sent ++ [(encodeBlks P c buf blks).1]).flatten.length)).map
          (fun j => ((j + 1) * P.framesPerBlock) % 65536))
    ∧ (∀ b ∈ (encodeBlks P c buf blks).1, hdrOk P b)
    ∧ (∀ t ∈ sent ++ [(encodeBlks P c buf blks).1], ∀ b ∈ t, hdrOk P b) := by
  have hflat : (sent ++ [(encodeBlks P c buf blks).1]).flatten
      = sent.flatten ++ (encodeBlks P c buf blks).1 := by
    simp
  have hnewlen : ((encodeBlks P c buf blks).1).length = P.blocksPerTransfer := by
    rw [encodeBlks_length, hLen]
  refine ⟨hnewlen, ?_, ?_, ?_, ?_, ?_⟩
  · rw [encodeBlks_counter, hflat, List.length_append, hnewlen, hCnt, hLen,
      Nat.mul_add]
  · intro t ht
    simp only [List.mem_append, List.mem_singleton] at ht
    rcases ht with ht | rfl
    · exact hSentLen t ht
    · exact hnewlen
  · rw [hflat, List.length_append, hnewlen, List.map_append, hDec,
      encodeBlks_decode, hLen, List.range_add, List.map_append, List.map_map]
    congr 1
    apply List.map_congr_left
    intro k hk
    simp only [Function.comp]
    rw [hCnt]
    congr 1
    ring
  · exact encodeBlks_hdrOk P _ _ _ hHdr
  · intro t ht
    simp only [List.mem_append, List.mem_singleton] at ht
    rcases ht with ht | rfl
    · exact hSentHdr t ht
    · exact encodeBlks_hdrOk P _ _ _ hHdr

/-- Shared invariant of the p2o transition system: the block list keeps its
size; whenever `reading_at_p2o_end` is down the transfer buffer is silence;
the global counter equals `OB_FRAMES_PER_BLOCK` times the number of blocks
ever sent; each sent transfer has `blocks_per_transfer` blocks; the decoded
frames fields of the sent blocks, in order, are
`(j+1) × OB_FRAMES_PER_BLOCK mod 2^16`; and every block, live or sent,
carries the init-time header bytes 0x07 0xff and untouched padding. -/
def P2OInv (P : P2OParams) (s : P2OState) : Prop :=
  s.blks.length = P.blocksPerTransfer
  ∧ (s.reading = false → s.buf = List.replicate (transferSamples P) 0)
  ∧ s.counter = P.framesPerBlock * s.sent.flatten.length
  ∧ (∀ t ∈ s.sent, t.length = P.blocksPerTransfer)
  ∧ (s.sent.flatten.map decodeFrames
    = (List.range s.sent.flatten.length).map
        (fun j => ((j + 1) * P.framesPerBlock) % 65536))
  ∧ (∀ b ∈ s.blks, hdrOk P b)
  ∧ (∀ t ∈ s.sent, ∀ b ∈ t, hdrOk P b)

theorem p2o_step_inv (P : P2OParams) (s t : P2OState) (ih : P2OInv P s)
    (hst : P2OStep P s t) : P2OInv P t := by
  obtain ⟨ihLen, ihBuf, ihCnt, ihSentLen, ihDec, ihHdr, ihSentHdr⟩ := ih
  cases hst with
  | hostWrite xs s =>
    exact ⟨ihLen, ihBuf, ihCnt, ihSentLen, ihDec, ihHdr, ihSentHdr⟩
  | setEnable b s =>
    exact ⟨ihLen, ihBuf, ihCnt, ihSentLen, ihDec, ihHdr, ihSentHdr⟩
  | rearm s =>
    exact ⟨ihLen, fun _ => rfl, ihCnt, ihSentLen, ihDec, ihHdr, ihSentHdr⟩
  | outCycle s =>
    unfold P2OInv set_usb_output_data_blks
    split_ifs with h1 h2 h3 h4
    · obtain ⟨a, b, c, d, e, f⟩ := setBlocks_inv P s.counter s.buf s.blks
        s.sent ihLen ihCnt ihSentLen ihDec ihHdr ihSentHdr
      exact ⟨a, (fun hx => nomatch hx), b, c, d, e, f⟩
    · obtain ⟨a, b, c, d, e, f⟩ := setBlocks_inv P s.counter s.buf s.blks
        s.sent ihLen ihCnt ihSentLen ihDec ihHdr ihSentHdr
      exact ⟨a, fun _ => ihBuf h1, b, c, d, e, f⟩
    · obtain ⟨a, b, c, d, e, f⟩ := setBlocks_inv P s.counter
        (List.replicate (transferSamples P) 0) s.blks
        s.sent ihLen ihCnt ihSentLen ihDec ihHdr ihSentHdr
      exact ⟨a, fun _ => rfl, b, c, d, e, f⟩
    · obtain ⟨a, b, c, d, e, f⟩ := setBlocks_inv P s.counter
        (writeInto s.buf (s.ring.take (p2oTransferSize P / 4))) s.blks
        s.sent ihLen ihCnt ihSentLen ihDec ihHdr ihSentHdr
      exact ⟨a, fun hx => absurd hx h1, b, c, d, e, f⟩
    · obtain ⟨a, b, c, d, e, f⟩ := setBlocks_inv P s.counter
        (writeInto s.buf
          (P.srcSimple (s.ring.take (ringBytes s / p2oFrameSize P * p2oFrameSize P / 4))
            ((framesPerTransfer P : ℚ) / ((ringBytes s / p2oFrameSize P : ℕ) : ℚ))
            P.inputs)) s.blks
        s.sent ihLen ihCnt ihSentLen ihDec ihHdr ihSentHdr
      exact ⟨a, fun hx => absurd hx h1, b, c, d, e, f⟩

theorem p2o_reach_inv (P : P2OParams) (s : P2OState) (h : P2OReach P s) :
    P2OInv P s := by
  induction h with
  | init =>
    refine ⟨by simp [initP2OState], fun _ => rfl, by simp [initP2OState],
      ?_, rfl, ?_, ?_⟩
    · intro t ht
      simp [initP2OState] at ht
    · intro b hb
      simp only [initP2OState, List.mem_replicate] at hb
      rw [hb.2]
      exact ⟨rfl, rfl, rfl⟩
    · intro t ht
      simp [initP2OState] at ht
  | step hr hs ih =>
    exact p2o_step_inv P _ _ ih hs

/-- C2: over the outgoing transfers sent since activation, the decoded 16-bit
frames fields are `(j+1) × frames_per_block mod 2^16` at global block index
`j` — an arithmetic progression with step frames_per_block in 16-bit
arithmetic (first conjunct); every out-cycle advances the global counter by
frames_per_block per block (second conjunct); and the first block of the
first transfer carries frames_per_block itself (third conjunct). -/
theorem frames_counter_progression (P : P2OParams) (s : P2OState)
    (h : P2OReach P s) :
    (s.sent.flatten.map decodeFrames
      = (List.range s.sent.flatten.length).map
          (fun j => ((j + 1) * P.framesPerBlock) % 65536))
    ∧ ((set_usb_output_data_blks P s).1.counter
        = s.counter + P.framesPerBlock * P.blocksPerTransfer)
    ∧ (P.framesPerBlock < 65536 →
        ∀ hlen : 0 < s.sent.flatten.length,
          decodeFrames (s.sent.flatten.get ⟨0, hlen⟩) = P.framesPerBlock)
    ∧ (∀ j, ∀ hj1 : j + 1 < s.sent.flatten.length,
        decodeFrames (s.sent.flatten.get ⟨j + 1, hj1⟩)
          = (decodeFrames (s.sent.flatten.get ⟨j, Nat.lt_of_succ_lt hj1⟩)
              + P.framesPerBlock) % 65536) := by
  obtain ⟨ihLen, ihBuf, ihCnt, ihSentLen, ihDec, ihHdr, ihSentHdr⟩ :=
    p2o_reach_inv P s h
  have hidx : ∀ j, ∀ hj : j < s.sent.flatten.length,
      decodeFrames (s.sent.flatten.get ⟨j, hj⟩)
        = ((j + 1) * P.framesPerBlock) % 65536 := by
    intro j hj
    have h0 := congrArg (fun l => l[j]?) ihDec
    simp only [List.getElem?_map, List.getElem?_range, hj, if_true,
      List.getElem?_eq_getElem hj, Option.map_some'] at h0
    exact Option.some_injective _ h0
  refine ⟨ihDec, ?_, ?_, ?_⟩
  · unfold set_usb_output_data_blks
    split_ifs <;>
      (show (encodeBlks P s.counter _ s.blks).2 = _
       rw [encodeBlks_counter, ihLen])
  · intro hfpb hlen
    rw [hidx 0 hlen, Nat.zero_add, Nat.one_mul, Nat.mod_eq_of_lt hfpb]
  · intro j hj1
    rw [hidx (j + 1) hj1, hidx j (Nat.lt_of_succ_lt hj1)]
    rw [show (j + 1 + 1) * P.framesPerBlock
        = (j + 1) * P.framesPerBlock + P.framesPerBlock from by ring]
    omega

/-- Concrete parameters for instantiations: one channel, one block per
transfer, one frame per block, no padding, a trivial resampler. -/
def demoParams : P2OParams := ⟨1, 1, 1, 0, fun _ _ _ => []⟩

/-- Witness for `frames_counter_progression`: after the first out-cycle from
init, the first (and only) sent block's decoded frames field is
frames_per_block = 1. -/
theorem frames_counter_progression_witness :
    decodeFrames
        ((set_usb_output_data_blks demoParams (initP2OState demoParams)).1.sent.flatten.get
          ⟨0, by decide⟩)
      = demoParams.framesPerBlock :=
  (frames_counter_progression demoParams _
      (P2OReach.step P2OReach.init (P2OStep.outCycle _))).2.2.1
    (by decide) (by decide)

/-- C9: on every reachable state each outgoing block, live in `usb_data_out`
or already sent, carries the init-time big-endian header 0x07ff and the
untouched padding (first conjunct); and an out-cycle on any state leaves
every block's header bytes and padding unchanged, modifying only the frames
field and the data samples (second conjunct). -/
theorem header_invariance (P : P2OParams) (s : P2OState) :
    (P2OReach P s →
      (∀ b ∈ s.blks, b.headerHi = 0x07 ∧ b.headerLo = 0xff
        ∧ b.padding = List.replicate P.padSize 0)
      ∧ (∀ t ∈ s.sent, ∀ b ∈ t, b.headerHi = 0x07 ∧ b.headerLo = 0xff
          ∧ b.padding = List.replicate P.padSize 0))
    ∧ ((set_usb_output_data_blks P s).1.blks.map
          (fun b => (b.headerHi, b.headerLo, b.padding))
        = s.blks.map (fun b => (b.headerHi, b.headerLo, b.padding))) := by
  constructor
  · intro h
    obtain ⟨ihLen, ihBuf, ihCnt, ihSentLen, ihDec, ihHdr, ihSentHdr⟩ :=
      p2o_reach_inv P s h
    exact ⟨ihHdr, ihSentHdr⟩
  · unfold set_usb_output_data_blks
    split_ifs <;> exact encodeBlks_hdr P _ _ _

/-- Witness for `header_invariance`: the init state is reachable and its
first block carries the 0x07ff header. -/
theorem header_invariance_witness :
    (initOutBlk demoParams).headerHi = 0x07
    ∧ (initOutBlk demoParams).headerLo = 0xff
    ∧ (initOutBlk demoParams).padding = List.replicate demoParams.padSize 0 :=
  ((header_invariance demoParams (initP2OState demoParams)).1 P2OReach.init).1
    (initOutBlk demoParams) (by decide)

/-- C6: on an out-cycle with `reading_at_p2o_end` false: when p2o audio is
enabled and at least one full transfer is buffered, exactly
`floor(read_space / p2o_frame_size) × p2o_frame_size` bytes are discarded
from the ring — a multiple of the frame size — and `reading_at_p2o_end`
rises (first conjunct); otherwise the ring is untouched and the flag stays
down (second conjunct); in both cases the cycle encodes the current
p2o_transfer_buf, which on every reachable such state is zero-filled (third
and fourth conjuncts). -/
theorem phase_a_catch_up (P : P2OParams) (s : P2OState) (h : P2OReach P s)
    (hr : s.reading = false) :
    ((s.enabled = true ∧ p2oTransferSize P ≤ ringBytes s) →
      (set_usb_output_data_blks P s).2
        = [RingOp.discard (ringBytes s / p2oFrameSize P * p2oFrameSize P)]
      ∧ (set_usb_output_data_blks P s).1.ring
        = s.ring.drop (ringBytes s / p2oFrameSize P * p2oFrameSize P / 4)
      ∧ (set_usb_output_data_blks P s).1.reading = true
      ∧ p2oFrameSize P ∣ ringBytes s / p2oFrameSize P * p2oFrameSize P)
    ∧ (¬ (s.enabled = true ∧ p2oTransferSize P ≤ ringBytes s) →
      (set_usb_output_data_blks P s).2 = []
      ∧ (set_usb_output_data_blks P s).1.ring = s.ring
      ∧ (set_usb_output_data_blks P s).1.reading = false)
    ∧ s.buf = List.replicate (transferSamples P) 0
    ∧ (set_usb_output_data_blks P s).1.sent
      = s.sent ++ [(encodeBlks P s.counter s.buf s.blks).1] := by
  refine ⟨?_, ?_, (p2o_reach_inv P s h).2.1 hr, ?_⟩
  · intro h2
    unfold set_usb_output_data_blks
    rw [if_pos hr, if_pos h2]
    exact ⟨rfl, rfl, rfl, ⟨ringBytes s / p2oFrameSize P, Nat.mul_comm _ _⟩⟩
  · intro h2
    unfold set_usb_output_data_blks
    rw [if_pos hr, if_neg h2]
    exact ⟨rfl, rfl, hr⟩
  · unfold set_usb_output_data_blks
    rw [if_pos hr]
    split_ifs <;> rfl

/-- Witness for `phase_a_catch_up`: at the (reachable) init state p2o audio
is disabled, so the cycle leaves the ring alone, keeps the flag down and
encodes the zero-filled buffer. -/
theorem phase_a_catch_up_witness :
    (set_usb_output_data_blks demoParams (initP2OState demoParams)).2 = []
    ∧ (set_usb_output_data_blks demoParams (initP2OState demoParams)).1.ring
      = (initP2OState demoParams).ring
    ∧ (set_usb_output_data_blks demoParams (initP2OState demoParams)).1.reading
      = false :=
  (phase_a_catch_up demoParams (initP2OState demoParams) P2OReach.init rfl).2.1
    (by decide)

/-- C1 (amended): in a reachable steady-state underflow cycle whose ring
still holds at least one whole frame, `available_frames =
floor(read_space / p2o_frame_size)` is at least 1, the cycle reads exactly
that many whole frames into the resampler scratch buffer, and it sets
`src_ratio = frames_per_transfer / available_frames`. -/
theorem p2o_underflow_resample (P : P2OParams) (s : P2OState)
    (h : P2OReach P s) (hin : 0 < P.inputs) (hr : s.reading = true)
    (he : s.enabled = true) (hu : ringBytes s < p2oTransferSize P)
    (hfs : p2oFrameSize P ≤ ringBytes s) :
    1 ≤ ringBytes s / p2oFrameSize P
    ∧ (set_usb_output_data_blks P s).1.srcInputFrames
      = ringBytes s / p2oFrameSize P
    ∧ (set_usb_output_data_blks P s).1.srcRatio
      = (framesPerTransfer P : ℚ) / ((ringBytes s / p2oFrameSize P : ℕ) : ℚ)
    ∧ (set_usb_output_data_blks P s).2
      = [RingOp.readBuf (ringBytes s / p2oFrameSize P * p2oFrameSize P)]
    ∧ (set_usb_output_data_blks P s).1.scratch
      = writeInto s.scratch
          (s.ring.take (ringBytes s / p2oFrameSize P * p2oFrameSize P / 4)) := by
  have hfspos : 0 < p2oFrameSize P := by
    unfold p2oFrameSize
    omega
  have hc1 : ¬ s.reading = false := by
    rw [hr]
    exact Bool.true_eq_false ▸ (by simp)
  have hc2 : ¬ s.enabled = false := by
    rw [he]
    simp
  have hc3 : ¬ p2oTransferSize P ≤ ringBytes s := by omega
  refine ⟨(Nat.one_le_div_iff hfspos).mpr hfs, ?_, ?_, ?_, ?_⟩ <;>
    · unfold set_usb_output_data_blks
      rw [if_neg hc1, if_neg hc2, if_neg hc3]
      try rfl

/-- Parameters with two blocks per transfer, for the underflow witness. -/
def demoParams2 : P2OParams := ⟨1, 2, 1, 0, fun _ _ _ => List.replicate 2 0⟩

/-- Trace states for the underflow witness: enable, fill one transfer, run
the catch-up cycle, then one more frame arrives. -/
def c1w1 : P2OState := { initP2OState demoParams2 with enabled := true }

def c1w2 : P2OState := { c1w1 with ring := c1w1.ring ++ [0, 0] }

def c1w3 : P2OState := (set_usb_output_data_blks demoParams2 c1w2).1

def c1w4 : P2OState := { c1w3 with ring := c1w3.ring ++ [0] }

theorem c1w4_reach : P2OReach demoParams2 c1w4 :=
  P2OReach.step
    (P2OReach.step
      (P2OReach.step
        (P2OReach.step P2OReach.init (P2OStep.setEnable true _))
        (P2OStep.hostWrite [0, 0] _))
      (P2OStep.outCycle _))
    (P2OStep.hostWrite [0] _)

/-- Witness for `p2o_underflow_resample`: one frame in the ring, transfer
size two frames — the cycle resamples one available frame at ratio 2. -/
theorem p2o_underflow_resample_witness :
    1 ≤ ringBytes c1w4 / p2oFrameSize demoParams2
    ∧ (set_usb_output_data_blks demoParams2 c1w4).1.srcInputFrames
      = ringBytes c1w4 / p2oFrameSize demoParams2
    ∧ (set_usb_output_data_blks demoParams2 c1w4).1.srcRatio
      = (framesPerTransfer demoParams2 : ℚ)
        / ((ringBytes c1w4 / p2oFrameSize demoParams2 : ℕ) : ℚ)
    ∧ (set_usb_output_data_blks demoParams2 c1w4).2
      = [RingOp.readBuf (ringBytes c1w4 / p2oFrameSize demoParams2
          * p2oFrameSize demoParams2)]
    ∧ (set_usb_output_data_blks demoParams2 c1w4).1.scratch
      = writeInto c1w4.scratch
          (c1w4.ring.take (ringBytes c1w4 / p2oFrameSize demoParams2
            * p2oFrameSize demoParams2 / 4)) :=
  p2o_underflow_resample demoParams2 c1w4 c1w4_reach (by decide) (by decide)
    (by decide) (by decide) (by decide)

/-- Trace states for the C1 counterexample: enable, fill exactly one
transfer, run the catch-up cycle (which drains the ring and raises
`reading_at_p2o_end`); the next cycle is an underflow with an empty ring. -/
def c1x1 : P2OState := { initP2OState demoParams with enabled := true }

def c1x2 : P2OState := { c1x1 with ring := c1x1.ring ++ [0] }

def c1x3 : P2OState := (set_usb_output_data_blks demoParams c1x2).1

theorem c1x3_reach : P2OReach demoParams c1x3 :=
  P2OReach.step
    (P2OReach.step
      (P2OReach.step P2OReach.init (P2OStep.setEnable true _))
      (P2OStep.hostWrite [0] _))
    (P2OStep.outCycle _)

/-- C1 counterexample: the claim that `available_frames ≥ 1` in every
reachable underflow state is false. After the catch-up cycle drains the ring
and the host writes nothing, the very next out-cycle is an underflow with
read_space 0, so `available_frames = 0` and `src_ratio` is a division by
zero. -/
theorem p2o_underflow_zero_frames_counterexample :
    (P2OReach demoParams c1x3
      ∧ 0 < demoParams.inputs ∧ 0 < demoParams.blocksPerTransfer
      ∧ 0 < demoParams.framesPerBlock
      ∧ c1x3.reading = true ∧ c1x3.enabled = true
      ∧ ringBytes c1x3 < p2oTransferSize demoParams
      ∧ ringBytes c1x3 / p2oFrameSize demoParams = 0)
    ∧ ¬ (∀ (P : P2OParams) (s : P2OState), 0 < P.inputs →
        0 < P.blocksPerTransfer → 0 < P.framesPerBlock → P2OReach P s →
        s.reading = true → s.enabled = true →
        ringBytes s < p2oTransferSize P → 1 ≤ ringBytes s / p2oFrameSize P) := by
  refine ⟨⟨c1x3_reach, by decide, by decide, by decide, by decide, by decide,
    by decide, by decide⟩, ?_⟩
  intro hclaim
  have := hclaim demoParams c1x3 (by decide) (by decide) (by decide) c1x3_reach
    (by decide) (by decide) (by decide)
  rw [show ringBytes c1x3 / p2oFrameSize demoParams = 0 from by decide] at this
  exact absurd this (by decide)

/-! Status machine of the audio thread `run_audio_o2p_midi` (engine.c lines
776-832) together with `ow_engine_stop` (line 1015) and the ERROR writes of
the completion callbacks, as a small-step machine on (program location,
status). The steps are exactly those the claim quantifies over: the audio
thread's own moves, a callback failing a submission inside
`libusb_handle_events_completed` (status := ERROR), and a concurrent
`ow_engine_stop` (status := STOP). -/

/-- Program locations of the audio thread: the READY spin (line 782), the
initial submissions (786-791), the loop head that re-arms and writes WAIT
(795-811), the event loop (813-816), the stop check (818), the BOOT write
(823), the ring drain (825-828), and the returned thread. -/
inductive AudioLoc where
  | spin
  | afterSpin
  | loopTop
  | events
  | checkStop
  | setBoot
  | drain
  | done
deriving DecidableEq, Repr

/-- A configuration: where the audio thread stands and the engine status. -/
structure AudioCfg where
  loc : AudioLoc
  status : OwStatus
deriving DecidableEq, Repr

/-- Interleaved small steps of the machine. `stop` may fire at any time from
the host thread; `eventsError` is a completion callback observing a failed
submission; the rest are the audio thread's own moves, each guarded by the
status comparison the C code performs at that point. -/
inductive AudioStep : AudioCfg → AudioCfg → Prop
  | stop (c : AudioCfg) : AudioStep c ⟨c.loc, .stop⟩
  | spinExit (st : OwStatus) : st ≠ .ready →
      AudioStep ⟨.spin, st⟩ ⟨.afterSpin, st⟩
  | submitOk (st : OwStatus) : AudioStep ⟨.afterSpin, st⟩ ⟨.loopTop, st⟩
  | submitFail (st : OwStatus) : AudioStep ⟨.afterSpin, st⟩ ⟨.loopTop, .error⟩
  | armWait (st : OwStatus) : AudioStep ⟨.loopTop, st⟩ ⟨.events, .wait⟩
  | eventsSpin (st : OwStatus) : statusLe .wait st = true →
      AudioStep ⟨.events, st⟩ ⟨.events, st⟩
  | eventsError (st : OwStatus) : statusLe .wait st = true →
      AudioStep ⟨.events, st⟩ ⟨.events, .error⟩
  | eventsExit (st : OwStatus) : statusLe .wait st = false →
      AudioStep ⟨.events, st⟩ ⟨.checkStop, st⟩
  | checkBreak (st : OwStatus) : statusLe st .stop = true →
      AudioStep ⟨.checkStop, st⟩ ⟨.done, st⟩
  | checkCont (st : OwStatus) : statusLe st .stop = false →
      AudioStep ⟨.checkStop, st⟩ ⟨.setBoot, st⟩
  | armBoot (st : OwStatus) : AudioStep ⟨.setBoot, st⟩ ⟨.drain, .boot⟩
  | drainDone (st : OwStatus) : AudioStep ⟨.drain, st⟩ ⟨.loopTop, st⟩

/-- The configuration right after activation: status READY, thread at the
READY spin. -/
def audioInit : AudioCfg := ⟨.spin, .ready⟩

/-- Configurations reachable from activation. -/
def AudioReach (c : AudioCfg) : Prop :=
  Relation.ReflTransGen AudioStep audioInit c

/-- The audio thread has entered the event loop, or is at the stop check, or
has returned: from here every status write it can still perform is ERROR. -/
def inEventTail (c : AudioCfg) : Prop :=
  c.loc = .events ∨ c.loc = .checkStop ∨ c.loc = .done

theorem audio_step_preserve (c d : AudioCfg) (hloc : inEventTail c)
    (hst : statusLe c.status .stop = true) (hs : AudioStep c d) :
    statusLe d.status .stop = true ∧ inEventTail d := by
  cases hs with
  | stop c => exact ⟨rfl, hloc⟩
  | spinExit st h => simp [inEventTail] at hloc
  | submitOk st => simp [inEventTail] at hloc
  | submitFail st => simp [inEventTail] at hloc
  | armWait st => simp [inEventTail] at hloc
  | eventsSpin st h => exact ⟨hst, Or.inl rfl⟩
  | eventsError st h => exact ⟨by decide, Or.inl rfl⟩
  | eventsExit st h => exact ⟨hst, Or.inr (Or.inl rfl)⟩
  | checkBreak st h => exact ⟨hst, Or.inr (Or.inr rfl)⟩
  | checkCont st h =>
    rw [hst] at h
    cases h
  | armBoot st => simp [inEventTail] at hloc
  | drainDone st => simp [inEventTail] at hloc

/-- C3 (amended): once status is at or below STOP while the audio thread is
inside the event loop, at the stop check, or already returned, every
sequence of engine steps (thread moves, callback errors, further stops)
keeps the status at or below STOP — the thread breaks out and never re-arms.
The unguarded WAIT write at the loop head and the BOOT write after the stop
check can still overwrite a STOP that lands before those writes, which is
what the original claim misses. -/
theorem stop_permanent_in_event_loop (c d : AudioCfg) (hloc : inEventTail c)
    (hst : statusLe c.status .stop = true)
    (h : Relation.ReflTransGen AudioStep c d) :
    statusLe d.status .stop = true := by
  have key : statusLe d.status .stop = true ∧ inEventTail d := by
    induction h with
    | refl => exact ⟨hst, hloc⟩
    | tail hr hs ih => exact audio_step_preserve _ _ ih.2 ih.1 hs
  exact key.1

/-- Witness for `stop_permanent_in_event_loop`: from the event loop with
status STOP, after the thread observes the drop and moves to the stop check,
status is still at most STOP. -/
theorem stop_permanent_in_event_loop_witness :
    statusLe (AudioCfg.mk .checkStop .stop).status .stop = true :=
  stop_permanent_in_event_loop ⟨.events, .stop⟩ ⟨.checkStop, .stop⟩
    (Or.inl rfl) (by decide)
    (Relation.ReflTransGen.single (AudioStep.eventsExit _ (by decide)))

/-- C3 counterexample: the claim that after STOP is set no engine step ever
sets status above STOP is false. If `ow_engine_stop` fires while the thread
still spins on READY (before activation's loop body runs), the thread
leaves the spin, submits the initial transfers, and the loop head
unconditionally writes WAIT (engine.c line 810) — a reachable configuration
with status STOP whose very next thread step raises the status to WAIT. -/
theorem stop_overwritten_counterexample :
    (AudioReach ⟨.loopTop, .stop⟩
      ∧ AudioStep ⟨.loopTop, .stop⟩ ⟨.events, .wait⟩
      ∧ statusLe OwStatus.wait .stop = false)
    ∧ ¬ (∀ c d : AudioCfg, AudioReach c → c.status = .stop → AudioStep c d →
          statusLe d.status .stop = true) := by
  have hreach : AudioReach ⟨.loopTop, .stop⟩ := by
    have s1 : AudioStep ⟨.spin, .ready⟩ ⟨.spin, .stop⟩ := AudioStep.stop _
    have s2 : AudioStep ⟨.spin, .stop⟩ ⟨.afterSpin, .stop⟩ :=
      AudioStep.spinExit _ (by decide)
    have s3 : AudioStep ⟨.afterSpin, .stop⟩ ⟨.loopTop, .stop⟩ :=
      AudioStep.submitOk _
    exact Relation.ReflTransGen.tail
      (Relation.ReflTransGen.tail
        (Relation.ReflTransGen.tail Relation.ReflTransGen.refl s1) s2) s3
  refine ⟨⟨hreach, AudioStep.armWait _, by decide⟩, ?_⟩
  intro hclaim
  have := hclaim ⟨.loopTop, .stop⟩ ⟨.events, .wait⟩ hreach rfl
    (AudioStep.armWait _)
  exact absurd this (by decide)

end Overwitch
